import Mathlib

/-!
Verification of the generic free traversal of libcyaml (src/free.c).

The development shallowly embeds the traversal engine: memory is a byte map
from addresses to byte values, the schema descriptor mirrors the fields of
the C schema struct that src/free.c consumes, and each run of the engine is
modelled as the list of observable events it performs (dispatch-core
invocations, variable-width memory reads, log calls, and calls to the C
library function free).  Address 0 plays the role of the C null pointer.
-/

/-- Byte-addressed memory: each address holds one byte (values are reduced
modulo 256 when read, so any Nat-valued map is a valid memory). -/
def Mem : Type := Nat → Nat

/-- Modelled from the spec: the client configuration (cyaml_config_t, declared
in the public header, which is not among the sources).  The spec says it
provides at least a logging callback and a minimum log level; the traversal
engine only hands it to the logging collaborator, so the model keeps just the
minimum log level. -/
structure Config where
  logLevel : Nat

/-- Modelled from the spec: the status codes returned by the entry point
(success, missing configuration, missing schema), named after the constants
used in src/free.c. -/
inductive CyamlErr where
  | ok
  | errBadParamNullConfig
  | errBadParamNullSchema
deriving DecidableEq, Repr

mutual
/-- Modelled from the spec: the schema type descriptor (cyaml_schema_type_t,
declared in the public header, which is not among the sources), restricted to
the fields src/free.c consumes: the type tag, the CYAML_FLAG_POINTER bit
(here a Bool), data_size, and the payload of the tag (mapping field list, or
sequence element schema with count location / fixed maximum).  The payload is
stored in the matching variant, mirroring the union selected by the tag. -/
inductive Schema where
  | scalar (pointer : Bool) (dataSize : Nat)
  | mapping (pointer : Bool) (dataSize : Nat) (fields : Fields)
  | sequence (pointer : Bool) (dataSize : Nat) (elem : Schema)
      (countSize : Nat) (countOffset : Nat)
  | sequenceFixed (pointer : Bool) (dataSize : Nat) (elem : Schema) (max : Nat)
deriving Repr
/-- Modelled from the spec: the sentinel-terminated array of mapping field
entries (cyaml_schema_mapping_t), as a list of (data_offset, value schema)
pairs; the list models the entries strictly before the key = NULL sentinel. -/
inductive Fields where
  | nil
  | cons (offset : Nat) (value : Schema) (rest : Fields)
deriving Repr
end

/-- Accessor for the CYAML_FLAG_POINTER bit of a schema node. -/
def Schema.pointer : Schema → Bool
  | .scalar p _ => p
  | .mapping p _ _ => p
  | .sequence p _ _ _ _ => p
  | .sequenceFixed p _ _ _ => p

/-- Accessor for the data_size field of a schema node. -/
def Schema.dataSize : Schema → Nat
  | .scalar _ n => n
  | .mapping _ n _ => n
  | .sequence _ n _ _ _ => n
  | .sequenceFixed _ n _ _ => n

/-- Concatenation of two field lists (used to speak about the fields before
and after a given field of a mapping). -/
def Fields.append : Fields → Fields → Fields
  | .nil, g => g
  | .cons o v r, g => .cons o v (Fields.append r g)

/-- View of a field list as an ordinary list of (offset, value) pairs. -/
def Fields.toList : Fields → List (Nat × Schema)
  | .nil => []
  | .cons o v r => (o, v) :: Fields.toList r

mutual
/-- Nesting depth of a schema: 1 for a scalar, 1 plus the deepest child for
aggregates.  The C traversal recurses once per schema level, so this is the
bound on its dynamic recursion depth. -/
def schemaDepth : Schema → Nat
  | .scalar _ _ => 1
  | .mapping _ _ fs => 1 + fieldsDepth fs
  | .sequence _ _ elem _ _ => 1 + schemaDepth elem
  | .sequenceFixed _ _ elem _ => 1 + schemaDepth elem
/-- Deepest schema among a mapping's fields (0 for the empty field list). -/
def fieldsDepth : Fields → Nat
  | .nil => 0
  | .cons _ v rest => max (schemaDepth v) (fieldsDepth rest)
end

/-- Size in bytes of a data pointer (sizeof(void *) on the modelled
64-bit host). -/
def PTR_SIZE : Nat := 8

/-- Little-endian read of n bytes starting at addr. -/
def readBytesLE (m : Mem) (addr : Nat) : Nat → Nat
  | 0 => 0
  | n + 1 => m addr % 256 + 256 * readBytesLE m (addr + 1) n

/-- Modelled from the spec: the variable-width integer reader cyaml_data_read
(declared in data.h, implementation not among the sources).  Given a byte
width of 1, 2, 4 or 8 and a source address it returns the unsigned integer
stored there; any other width is an unsupported-width decode error, reported
as none. -/
def cyaml_data_read (size : Nat) (addr : Nat) (m : Mem) : Option Nat :=
  if size = 1 ∨ size = 2 ∨ size = 4 ∨ size = 8 then
    some (readBytesLE m addr size)
  else
    none

/-- Observable events of one traversal: an invocation of the recursive
dispatch core on an address, a cyaml_data_read of a given width at an
address, a cyaml__log call carrying the address about to be freed, and a call
to the C function free on an address (free 0 models free(NULL), which
releases nothing). -/
inductive Event where
  | call (addr : Nat)
  | read (addr : Nat) (size : Nat)
  | log (addr : Nat)
  | free (addr : Nat)
deriving DecidableEq, Repr

/-- Traversal of a mapping (cyaml__free_mapping in src/free.c): walk the
field entries in order until the sentinel, dispatching on each field's value
schema at data + data_offset.  The recursive dispatch is abstracted as the
recur argument. -/
def cyaml__free_mapping (recur : Schema → Nat → List Event) :
    Fields → Nat → List Event
  | Fields.nil, _ => []
  | Fields.cons off value rest, data =>
      recur value (data + off) ++ cyaml__free_mapping recur rest data

/-- Element loop of the sequence traversal (the final for loop of
cyaml__free_sequence in src/free.c): given the element schema, the resolved
element base address and the already-computed stride, dispatch on elements
0 .. count-1 in order. -/
def cyaml__seq_elems (recur : Schema → Nat → List Event) (schema : Schema)
    (data : Nat) (m : Mem) (pointerFlag : Bool) (count : Nat) : List Event :=
  let stride := if schema.pointer then PTR_SIZE else schema.dataSize
  if pointerFlag then
    Event.read data PTR_SIZE ::
      (match cyaml_data_read PTR_SIZE data m with
       | none => []
       | some p =>
         if p = 0 then []
         else (List.range count).flatMap (fun i => recur schema (p + stride * i)))
  else
    (List.range count).flatMap (fun i => recur schema (data + stride * i))

/-- Traversal of a sequence (cyaml__free_sequence in src/free.c): for a
SEQUENCE node, decode the stored element count at data + count_offset with
width count_size, aborting on decode error; for a SEQUENCE_FIXED node use the
schema's fixed maximum.  Then (cyaml__seq_elems) dereference the stored
pointer when the sequence node carries the pointer flag — aborting on a null
or failed read — and dispatch on each element with the per-element stride:
pointer size if the element schema is pointer-flagged, else the element
schema's data_size.  Called with a non-sequence schema it does nothing (the C
code asserts this cannot happen). -/
def cyaml__free_sequence (recur : Schema → Nat → List Event) (ss : Schema)
    (data : Nat) (m : Mem) : List Event :=
  match ss with
  | Schema.sequence sp _ schema countSize countOffset =>
      Event.read (data + countOffset) countSize ::
        (match cyaml_data_read countSize (data + countOffset) m with
         | none => []
         | some count => cyaml__seq_elems recur schema data m sp count)
  | Schema.sequenceFixed sp _ schema mx =>
      cyaml__seq_elems recur schema data m sp mx
  | _ => []

/-- Type-directed dispatch step of cyaml__free in src/free.c: a MAPPING node
goes to the mapping walker, a SEQUENCE or SEQUENCE_FIXED node to the sequence
walker, and a plain scalar has no children to traverse. -/
def cyaml__free_children (recur : Schema → Nat → List Event) (s : Schema)
    (d : Nat) (m : Mem) : List Event :=
  match s with
  | Schema.mapping _ _ fs => cyaml__free_mapping recur fs d
  | Schema.sequence _ _ _ _ _ => cyaml__free_sequence recur s d m
  | Schema.sequenceFixed _ _ _ _ => cyaml__free_sequence recur s d m
  | Schema.scalar _ _ => []

/-- Own-allocation release step of cyaml__free in src/free.c: when the node
carries the pointer flag, read the pointer-sized value stored at the node's
address; on decode error return without freeing, otherwise log the address
about to be freed and free it. -/
def cyaml__free_own (s : Schema) (d : Nat) (m : Mem) : List Event :=
  if s.pointer then
    Event.read d PTR_SIZE ::
      (match cyaml_data_read PTR_SIZE d m with
       | none => []
       | some p => [Event.log p, Event.free p])
  else
    []

/-- Fuel-indexed trace semantics of the recursive dispatch core cyaml__free
in src/free.c.  Each invocation records a call event, returns immediately on
a null data address, otherwise traverses the children per the type tag and
then releases the node's own allocation when pointer-flagged.  The fuel
argument caps the number of nested dispatch levels; cyaml__free below runs it
with fuel equal to the schema's nesting depth, which is always sufficient
(see freeFuel_congr / claim C9). -/
def freeFuel : Nat → Config → Schema → Nat → Mem → List Event
  | 0, _, _, _, _ => []
  | fuel + 1, cfg, s, d, m =>
      Event.call d ::
        (if d = 0 then []
         else
           cyaml__free_children (fun v a => freeFuel fuel cfg v a m) s d m ++
             cyaml__free_own s d m)

/-- The recursive dispatch core cyaml__free of src/free.c, as a total
function: the fuel-indexed semantics run with fuel equal to the schema's
nesting depth (which claim C9 shows is always enough). -/
def cyaml__free (cfg : Config) (s : Schema) (d : Nat) (m : Mem) : List Event :=
  freeFuel (schemaDepth s) cfg s d m

/-- The exported entry point cyaml_free of src/free.c: a null configuration
or a null schema is rejected with the corresponding status and nothing else
happens; otherwise the dispatch core runs on the root pair, the root
allocation itself is passed to free unconditionally, and CYAML_OK is
returned. -/
def cyaml_free (config : Option Config) (schema : Option Schema) (data : Nat)
    (m : Mem) : CyamlErr × List Event :=
  match config with
  | none => (CyamlErr.errBadParamNullConfig, [])
  | some cfg =>
    match schema with
    | none => (CyamlErr.errBadParamNullSchema, [])
    | some s => (CyamlErr.ok, cyaml__free cfg s data m ++ [Event.free data])

/-- Addresses passed to the C function free, in order of occurrence. -/
def freesOf (evs : List Event) : List Nat :=
  evs.filterMap (fun e => match e with
    | Event.free a => some a
    | _ => none)

/-- Addresses actually released, in order: free(NULL) releases nothing, so
address 0 is dropped. -/
def releasesOf (evs : List Event) : List Nat :=
  (freesOf evs).filter (fun a => a != 0)

/-- Addresses on which the recursive dispatch core was invoked, in order. -/
def callsOf (evs : List Event) : List Nat :=
  evs.filterMap (fun e => match e with
    | Event.call a => some a
    | _ => none)

/-- Checks that every free of a nonzero address is immediately preceded by a
log event carrying that same address. -/
def freesLogged : List Event → Bool
  | [] => true
  | Event.log a :: Event.free b :: rest => a == b && freesLogged rest
  | Event.free a :: rest => a == 0 && freesLogged rest
  | _ :: rest => freesLogged rest

/-- Modelled from the spec: the owned allocations reachable through the
schema, in traversal order — for each visited node, first the allocations
reachable through its children (mapping fields at their byte offsets;
sequence elements located and counted as in section 4.3 of the spec, with the
same abort-on-decode-error and abort-on-null rules), and then, if the node is
pointer-flagged, the pointer value stored at the node's own address.  A null
data address contributes nothing.  This is the specification-side definition
against which the traversal's releases are compared (claim C1). -/
def ownedSeqElems (recurO : Schema → Nat → List Nat) (elem : Schema)
    (d : Nat) (m : Mem) (pointerFlag : Bool) (k : Nat) : List Nat :=
  let stride := if elem.pointer then PTR_SIZE else elem.dataSize
  if pointerFlag then
    match cyaml_data_read PTR_SIZE d m with
    | none => []
    | some p =>
      if p = 0 then []
      else (List.range k).flatMap (fun i => recurO elem (p + stride * i))
  else
    (List.range k).flatMap (fun i => recurO elem (d + stride * i))

/-- Modelled from the spec: fuel-indexed form of the reachable owned
allocations (see ownedSeqElems for the sequence-element rule). -/
def ownedFuel : Nat → Schema → Nat → Mem → List Nat
  | 0, _, _, _ => []
  | fuel + 1, s, d, m =>
    if d = 0 then []
    else
      (match s with
       | Schema.scalar _ _ => []
       | Schema.mapping _ _ fs =>
           (Fields.toList fs).flatMap
             (fun e => ownedFuel fuel e.2 (d + e.1) m)
       | Schema.sequence sp _ elem cs co =>
           match cyaml_data_read cs (d + co) m with
           | none => []
           | some k => ownedSeqElems (fun v a => ownedFuel fuel v a m) elem d m sp k
       | Schema.sequenceFixed sp _ elem mx =>
           ownedSeqElems (fun v a => ownedFuel fuel v a m) elem d m sp mx) ++
      (if s.pointer then
         match cyaml_data_read PTR_SIZE d m with
         | none => []
         | some p => [p]
       else [])

/-- Modelled from the spec: the owned allocations reachable through the
schema from a data address, in traversal order. -/
def ownedAllocs (s : Schema) (d : Nat) (m : Mem) : List Nat :=
  ownedFuel (schemaDepth s) s d m

/-- Depth-checked mapping walk: same field-by-field traversal as
cyaml__free_mapping, but the dispatch may fail (fuel exhaustion), in which
case the whole walk fails. -/
def freeFieldsChecked (recur : Schema → Nat → Option (List Event)) :
    Fields → Nat → Option (List Event)
  | Fields.nil, _ => some []
  | Fields.cons off value rest, data => do
      let x ← recur value (data + off)
      let xs ← freeFieldsChecked recur rest data
      some (x ++ xs)

/-- Depth-checked element loop: dispatch on elements 0 .. count-1 in order,
failing if any dispatch fails. -/
def freeElemsChecked (recur : Nat → Option (List Event)) :
    Nat → Option (List Event)
  | 0 => some []
  | n + 1 => do
      let xs ← freeElemsChecked recur n
      let x ← recur n
      some (xs ++ x)

/-- Depth-checked form of cyaml__seq_elems. -/
def seqElemsChecked (recur : Schema → Nat → Option (List Event))
    (schema : Schema) (data : Nat) (m : Mem) (pointerFlag : Bool)
    (count : Nat) : Option (List Event) :=
  let stride := if schema.pointer then PTR_SIZE else schema.dataSize
  if pointerFlag then
    match cyaml_data_read PTR_SIZE data m with
    | none => some [Event.read data PTR_SIZE]
    | some p =>
      if p = 0 then some [Event.read data PTR_SIZE]
      else do
        let xs ← freeElemsChecked (fun i => recur schema (p + stride * i)) count
        some (Event.read data PTR_SIZE :: xs)
  else
    freeElemsChecked (fun i => recur schema (data + stride * i)) count

/-- Depth-checked form of cyaml__free_sequence. -/
def freeSequenceChecked (recur : Schema → Nat → Option (List Event))
    (ss : Schema) (data : Nat) (m : Mem) : Option (List Event) :=
  match ss with
  | Schema.sequence sp _ schema countSize countOffset =>
      (match cyaml_data_read countSize (data + countOffset) m with
       | none => some []
       | some count =>
          seqElemsChecked recur schema data m sp count).map
        (fun xs => Event.read (data + countOffset) countSize :: xs)
  | Schema.sequenceFixed sp _ schema mx =>
      seqElemsChecked recur schema data m sp mx
  | _ => some []

/-- Depth-checked form of cyaml__free_children. -/
def freeChildrenChecked (recur : Schema → Nat → Option (List Event))
    (s : Schema) (d : Nat) (m : Mem) : Option (List Event) :=
  match s with
  | Schema.mapping _ _ fs => freeFieldsChecked recur fs d
  | Schema.sequence _ _ _ _ _ => freeSequenceChecked recur s d m
  | Schema.sequenceFixed _ _ _ _ => freeSequenceChecked recur s d m
  | Schema.scalar _ _ => some []

/-- Depth-checked dispatch core: identical control flow to freeFuel, but an
invocation with zero fuel remaining reports failure (none) instead of being
cut off silently.  Claim C9 shows that fuel equal to the schema's nesting
depth always suffices: the traversal then completes — for every data address
and memory, in particular for every element count stored in memory — and
agrees with cyaml__free. -/
def freeChecked : Nat → Config → Schema → Nat → Mem → Option (List Event)
  | 0, _, _, _, _ => none
  | fuel + 1, cfg, s, d, m =>
      if d = 0 then some [Event.call d]
      else do
        let children ← freeChildrenChecked
          (fun v a => freeChecked fuel cfg v a m) s d m
        some (Event.call d :: (children ++ cyaml__free_own s d m))

/-! ### Concrete example inputs used by witnesses and counterexamples -/

/-- A sample configuration. -/
def cfgW : Config := ⟨0⟩

/-- A second, different sample configuration. -/
def cfgW2 : Config := ⟨7⟩

/-- All-zero memory. -/
def memZero : Mem := fun _ => 0

/-- A mapping with two pointer-owned scalar fields at offsets 0 and 8. -/
def sW1 : Schema :=
  Schema.mapping false 16
    (Fields.cons 0 (Schema.scalar true 8)
      (Fields.cons 8 (Schema.scalar true 8) Fields.nil))

/-- Memory for sW1 at base 1000: the field at 1000 stores pointer 2000
(little-endian bytes 208, 7) and the field at 1008 stores pointer 3000
(little-endian bytes 184, 11). -/
def memW1 : Mem := fun a =>
  if a = 1000 then 208 else if a = 1001 then 7 else
  if a = 1008 then 184 else if a = 1009 then 11 else 0

/-- A pointer-owned mapping whose single field is a pointer-owned scalar at
offset 8. -/
def sW2 : Schema :=
  Schema.mapping true 16 (Fields.cons 8 (Schema.scalar true 8) Fields.nil)

/-- A pointer-owned SEQUENCE of by-value scalars whose stored count (one
byte at offset 8 from the sequence's storage slot) is decoded at slot + 8. -/
def seqPtr : Schema := Schema.sequence true 4 (Schema.scalar false 4) 1 8

/-- Memory for seqPtr at slot 16 storing a null element pointer: the count
byte at 24 holds 2, and bytes 16..23 (the stored pointer) are all zero. -/
def memNullPtr : Mem := fun a => if a = 24 then 2 else 0

/-- Memory for seqPtr at slot 16 storing element pointer 2000 (little-endian
bytes 208, 7) with count byte 2 at address 24. -/
def memPtr2000 : Mem := fun a =>
  if a = 16 then 208 else if a = 17 then 7 else if a = 24 then 2 else 0

/-- A by-value SEQUENCE of by-value scalars with a one-byte count stored at
offset 8 from the sequence's storage. -/
def seqVal : Schema := Schema.sequence false 4 (Schema.scalar false 4) 1 8

/-- A by-value SEQUENCE_FIXED of three by-value scalars. -/
def seqFix : Schema := Schema.sequenceFixed false 4 (Schema.scalar false 4) 3

/-- Memory with count byte 2 at address 58 (used with seqVal at base 50). -/
def memCount58 : Mem := fun a => if a = 58 then 2 else 0

/-- A SEQUENCE whose count field is declared with the unsupported width 3,
so decoding its count always fails. -/
def seqBadCount : Schema := Schema.sequence false 4 (Schema.scalar false 4) 3 0

/-- A sample dispatch stand-in for walker-level witnesses: it records only
the invocation. -/
def recurW : Schema → Nat → List Event := fun _ a => [Event.call a]

/-- A one-field list: a pointer-owned scalar at offset 0. -/
def fldsA : Fields := Fields.cons 0 (Schema.scalar true 8) Fields.nil

/-- A one-field list: a pointer-owned scalar at offset 8. -/
def fldsB : Fields := Fields.cons 8 (Schema.scalar true 8) Fields.nil

/-! ### Projection lemmas -/

@[simp] theorem freesOf_nil : freesOf [] = [] := rfl

@[simp] theorem freesOf_cons_call (a : Nat) (l : List Event) :
    freesOf (Event.call a :: l) = freesOf l := rfl

@[simp] theorem freesOf_cons_read (a n : Nat) (l : List Event) :
    freesOf (Event.read a n :: l) = freesOf l := rfl

@[simp] theorem freesOf_cons_log (a : Nat) (l : List Event) :
    freesOf (Event.log a :: l) = freesOf l := rfl

@[simp] theorem freesOf_cons_free (a : Nat) (l : List Event) :
    freesOf (Event.free a :: l) = a :: freesOf l := rfl

@[simp] theorem freesOf_append (xs ys : List Event) :
    freesOf (xs ++ ys) = freesOf xs ++ freesOf ys := by
  simp [freesOf, List.filterMap_append]

theorem freesOf_flatMap {α : Type} (l : List α) (f : α → List Event) :
    freesOf (l.flatMap f) = l.flatMap (fun x => freesOf (f x)) := by
  induction l with
  | nil => rfl
  | cons x xs ih => simp [List.flatMap_cons, ih]

@[simp] theorem callsOf_nil : callsOf [] = [] := rfl

@[simp] theorem callsOf_cons_call (a : Nat) (l : List Event) :
    callsOf (Event.call a :: l) = a :: callsOf l := rfl

@[simp] theorem callsOf_cons_read (a n : Nat) (l : List Event) :
    callsOf (Event.read a n :: l) = callsOf l := rfl

@[simp] theorem callsOf_cons_log (a : Nat) (l : List Event) :
    callsOf (Event.log a :: l) = callsOf l := rfl

@[simp] theorem callsOf_cons_free (a : Nat) (l : List Event) :
    callsOf (Event.free a :: l) = callsOf l := rfl

@[simp] theorem callsOf_append (xs ys : List Event) :
    callsOf (xs ++ ys) = callsOf xs ++ callsOf ys := by
  simp [callsOf, List.filterMap_append]

/-! ### Depth lemmas -/

theorem schemaDepth_pos (s : Schema) : 1 ≤ schemaDepth s := by
  cases s <;> simp [schemaDepth]

theorem schemaDepth_le_fieldsDepth {o : Nat} {v : Schema} :
    ∀ {fs : Fields}, (o, v) ∈ fs.toList → schemaDepth v ≤ fieldsDepth fs
  | .nil, h => by simp [Fields.toList] at h
  | .cons o' v' r, h => by
    simp only [Fields.toList, List.mem_cons] at h
    rcases h with h | h
    · cases h
      exact le_max_left _ _
    · exact le_trans (schemaDepth_le_fieldsDepth h) (le_max_right _ _)

/-! ### Congruence lemmas for the walkers -/

theorem cyaml__free_mapping_congr {r1 r2 : Schema → Nat → List Event} :
    ∀ (fs : Fields) (d : Nat),
      (∀ o v, (o, v) ∈ fs.toList → ∀ a, r1 v a = r2 v a) →
      cyaml__free_mapping r1 fs d = cyaml__free_mapping r2 fs d
  | .nil, _, _ => rfl
  | .cons o v r, d, h => by
    simp only [cyaml__free_mapping]
    rw [h o v (by simp [Fields.toList])]
    rw [cyaml__free_mapping_congr r d
      (fun o' v' hm a => h o' v' (by simp [Fields.toList, hm]) a)]

theorem cyaml__seq_elems_congr {r1 r2 : Schema → Nat → List Event}
    (schema : Schema) (data : Nat) (m : Mem) (sp : Bool) (k : Nat)
    (h : ∀ a, r1 schema a = r2 schema a) :
    cyaml__seq_elems r1 schema data m sp k =
      cyaml__seq_elems r2 schema data m sp k := by
  have hf : ∀ b st, (fun i => r1 schema (b + st * i)) =
      (fun i => r2 schema (b + st * i)) :=
    fun b st => funext fun i => h _
  unfold cyaml__seq_elems
  cases sp with
  | false => simp only [if_neg Bool.false_ne_true, hf]
  | true =>
    simp only [if_pos rfl]
    cases cyaml_data_read PTR_SIZE data m with
    | none => rfl
    | some p =>
      by_cases hp : p = 0
      · simp [hp]
      · simp only [if_neg hp, hf]

/-- View of the mapping walker as a flat map over the field list. -/
theorem cyaml__free_mapping_eq_flatMap (recur : Schema → Nat → List Event) :
    ∀ (fs : Fields) (d : Nat),
      cyaml__free_mapping recur fs d =
        (fs.toList).flatMap (fun e => recur e.2 (d + e.1))
  | .nil, _ => rfl
  | .cons o v r, d => by
    simp [cyaml__free_mapping, Fields.toList,
      cyaml__free_mapping_eq_flatMap recur r d]

/-- Fuel and configuration irrelevance of the dispatch core: any two fuel
amounts at least the schema's nesting depth, and any two configurations,
produce the same trace. -/
theorem freeFuel_congr :
    ∀ (n : Nat) (f1 f2 : Nat) (c1 c2 : Config) (s : Schema) (d : Nat) (m : Mem),
      schemaDepth s ≤ f1 → schemaDepth s ≤ f2 → f1 ≤ n →
      freeFuel f1 c1 s d m = freeFuel f2 c2 s d m := by
  intro n
  induction n with
  | zero =>
    intro f1 f2 c1 c2 s d m h1 h2 hn
    have hp := schemaDepth_pos s
    omega
  | succ N ih =>
    intro f1 f2 c1 c2 s d m h1 h2 hn
    have hp := schemaDepth_pos s
    obtain ⟨a, rfl⟩ : ∃ a, f1 = a + 1 := ⟨f1 - 1, by omega⟩
    obtain ⟨b, rfl⟩ : ∃ b, f2 = b + 1 := ⟨f2 - 1, by omega⟩
    simp only [freeFuel]
    by_cases hd : d = 0
    · simp [hd]
    · have hch : cyaml__free_children (fun v x => freeFuel a c1 v x m) s d m =
          cyaml__free_children (fun v x => freeFuel b c2 v x m) s d m := by
        cases s with
        | scalar p ds => rfl
        | mapping p ds fs =>
          have hdep : fieldsDepth fs ≤ a ∧ fieldsDepth fs ≤ b := by
            simp only [schemaDepth] at h1 h2
            omega
          exact cyaml__free_mapping_congr fs d
            (fun o v hm x => ih a b c1 c2 v x m
              (le_trans (schemaDepth_le_fieldsDepth hm) hdep.1)
              (le_trans (schemaDepth_le_fieldsDepth hm) hdep.2)
              (by omega))
        | sequence sp ds elem cs co =>
          have hdep : schemaDepth elem ≤ a ∧ schemaDepth elem ≤ b := by
            simp only [schemaDepth] at h1 h2
            omega
          have helem : ∀ x, freeFuel a c1 elem x m = freeFuel b c2 elem x m :=
            fun x => ih a b c1 c2 elem x m hdep.1 hdep.2 (by omega)
          simp only [cyaml__free_children, cyaml__free_sequence]
          cases cyaml_data_read cs (d + co) m with
          | none => rfl
          | some k =>
            exact congrArg (fun l => Event.read (d + co) cs :: l)
              (@cyaml__seq_elems_congr (fun v x => freeFuel a c1 v x m)
                (fun v x => freeFuel b c2 v x m) elem d m sp k helem)
        | sequenceFixed sp ds elem mx =>
          have hdep : schemaDepth elem ≤ a ∧ schemaDepth elem ≤ b := by
            simp only [schemaDepth] at h1 h2
            omega
          have helem : ∀ x, freeFuel a c1 elem x m = freeFuel b c2 elem x m :=
            fun x => ih a b c1 c2 elem x m hdep.1 hdep.2 (by omega)
          simp only [cyaml__free_children, cyaml__free_sequence]
          exact @cyaml__seq_elems_congr (fun v x => freeFuel a c1 v x m)
            (fun v x => freeFuel b c2 v x m) elem d m sp mx helem
      simp only [if_neg hd, hch]

/-- The frees performed by the element loop are the owned allocations of the
elements, given that this holds pointwise for the dispatch. -/
theorem freesOf_cyaml__seq_elems {recur : Schema → Nat → List Event}
    {recurO : Schema → Nat → List Nat} (schema : Schema) (d : Nat) (m : Mem)
    (sp : Bool) (k : Nat)
    (h : ∀ a, freesOf (recur schema a) = recurO schema a) :
    freesOf (cyaml__seq_elems recur schema d m sp k) =
      ownedSeqElems recurO schema d m sp k := by
  unfold cyaml__seq_elems ownedSeqElems
  cases sp with
  | false =>
    simp only [if_neg Bool.false_ne_true]
    rw [freesOf_flatMap]
    simp only [h]
  | true =>
    simp only [eq_self_iff_true, if_true]
    cases cyaml_data_read PTR_SIZE d m with
    | none => rfl
    | some p =>
      by_cases hp : p = 0
      · simp [hp]
      · simp only [if_neg hp, freesOf_cons_read]
        rw [freesOf_flatMap]
        simp only [h]

/-- The addresses passed to free by the dispatch core are exactly the owned
allocations reachable through the schema, at every fuel amount. -/
theorem freesOf_freeFuel (cfg : Config) (m : Mem) :
    ∀ (fuel : Nat) (s : Schema) (d : Nat),
      freesOf (freeFuel fuel cfg s d m) = ownedFuel fuel s d m := by
  intro fuel
  induction fuel with
  | zero => intro s d; rfl
  | succ F ih =>
    intro s d
    by_cases hd : d = 0
    · simp [hd, freeFuel, ownedFuel, freesOf]
    · simp only [freeFuel, ownedFuel, if_neg hd, freesOf_cons_call,
        freesOf_append]
      have hch : freesOf (cyaml__free_children
            (fun v a => freeFuel F cfg v a m) s d m) =
          (match s with
           | Schema.scalar _ _ => []
           | Schema.mapping _ _ fs =>
               (Fields.toList fs).flatMap
                 (fun e => ownedFuel F e.2 (d + e.1) m)
           | Schema.sequence sp _ elem cs co =>
               match cyaml_data_read cs (d + co) m with
               | none => []
               | some k =>
                   ownedSeqElems (fun v a => ownedFuel F v a m) elem d m sp k
           | Schema.sequenceFixed sp _ elem mx =>
               ownedSeqElems (fun v a => ownedFuel F v a m) elem d m sp mx) := by
        cases s with
        | scalar p ds => rfl
        | mapping p ds fs =>
          simp only [cyaml__free_children]
          rw [cyaml__free_mapping_eq_flatMap, freesOf_flatMap]
          have hfun : (fun (e : Nat × Schema) =>
                freesOf (freeFuel F cfg e.2 (d + e.1) m)) =
              (fun (e : Nat × Schema) => ownedFuel F e.2 (d + e.1) m) :=
            funext fun e => ih e.2 (d + e.1)
          rw [hfun]
        | sequence sp ds elem cs co =>
          simp only [cyaml__free_children, cyaml__free_sequence,
            freesOf_cons_read]
          cases cyaml_data_read cs (d + co) m with
          | none => rfl
          | some k =>
            exact freesOf_cyaml__seq_elems elem d m sp k (fun a => ih elem a)
        | sequenceFixed sp ds elem mx =>
          simp only [cyaml__free_children, cyaml__free_sequence]
          exact freesOf_cyaml__seq_elems elem d m sp mx (fun a => ih elem a)
      have hown : freesOf (cyaml__free_own s d m) =
          (if s.pointer = true then
             match cyaml_data_read PTR_SIZE d m with
             | none => []
             | some p => [p]
           else []) := by
        unfold cyaml__free_own
        by_cases hp : s.pointer = true
        · simp only [if_pos hp]
          cases cyaml_data_read PTR_SIZE d m with
          | none => rfl
          | some p => rfl
        · simp [hp]
      rw [hch, hown]

/-- The checked element loop succeeds and agrees with the plain element loop
whenever the dispatch does. -/
theorem freeElemsChecked_eq {f : Nat → List Event} {g : Nat → Option (List Event)}
    (h : ∀ i, g i = some (f i)) :
    ∀ n, freeElemsChecked g n = some ((List.range n).flatMap f)
  | 0 => by simp [freeElemsChecked]
  | n + 1 => by
    simp only [freeElemsChecked]
    rw [freeElemsChecked_eq h n, h n]
    simp [List.range_succ]

/-- The checked sequence element phase succeeds and agrees with
cyaml__seq_elems whenever the dispatch does on the element schema. -/
theorem seqElemsChecked_eq {recurL : Schema → Nat → List Event}
    {recurC : Schema → Nat → Option (List Event)} (schema : Schema) (d : Nat)
    (m : Mem) (sp : Bool) (k : Nat)
    (h : ∀ a, recurC schema a = some (recurL schema a)) :
    seqElemsChecked recurC schema d m sp k =
      some (cyaml__seq_elems recurL schema d m sp k) := by
  unfold seqElemsChecked cyaml__seq_elems
  cases sp with
  | false =>
    simp only [if_neg Bool.false_ne_true]
    exact freeElemsChecked_eq (fun i => h _) k
  | true =>
    simp only [eq_self_iff_true, if_true]
    cases cyaml_data_read PTR_SIZE d m with
    | none => rfl
    | some p =>
      by_cases hp : p = 0
      · simp [hp]
      · simp only [if_neg hp]
        rw [freeElemsChecked_eq (fun i => h _) k]
        rfl

/-- The checked mapping walk succeeds and agrees with cyaml__free_mapping
whenever the dispatch does on every field of the mapping. -/
theorem freeFieldsChecked_eq {recurL : Schema → Nat → List Event}
    {recurC : Schema → Nat → Option (List Event)} :
    ∀ (fs : Fields) (d : Nat),
      (∀ o v, (o, v) ∈ fs.toList → ∀ a, recurC v a = some (recurL v a)) →
      freeFieldsChecked recurC fs d = some (cyaml__free_mapping recurL fs d)
  | .nil, _, _ => rfl
  | .cons o v r, d, h => by
    simp only [freeFieldsChecked, cyaml__free_mapping]
    rw [h o v (by simp [Fields.toList]) (d + o)]
    rw [freeFieldsChecked_eq r d
      (fun o' v' hm a => h o' v' (by simp [Fields.toList, hm]) a)]
    rfl

/-- With fuel at least the schema's nesting depth, the depth-checked
traversal completes and agrees with the unchecked one at the same fuel. -/
theorem freeChecked_eq (cfg : Config) (m : Mem) :
    ∀ (fuel : Nat) (s : Schema) (d : Nat), schemaDepth s ≤ fuel →
      freeChecked fuel cfg s d m = some (freeFuel fuel cfg s d m) := by
  intro fuel
  induction fuel with
  | zero =>
    intro s d h
    have hp := schemaDepth_pos s
    omega
  | succ F ih =>
    intro s d h
    simp only [freeChecked, freeFuel]
    by_cases hd : d = 0
    · simp [hd]
    · simp only [if_neg hd]
      have hch : freeChildrenChecked (fun v a => freeChecked F cfg v a m) s d m
          = some (cyaml__free_children (fun v a => freeFuel F cfg v a m) s d m)
          := by
        cases s with
        | scalar p ds => rfl
        | mapping p ds fs =>
          simp only [freeChildrenChecked, cyaml__free_children]
          exact freeFieldsChecked_eq fs d
            (fun o v hm a => ih v a
              (le_trans (schemaDepth_le_fieldsDepth hm)
                (by simp only [schemaDepth] at h; omega)))
        | sequence sp ds elem cs co =>
          have he : ∀ a, freeChecked F cfg elem a m =
              some (freeFuel F cfg elem a m) :=
            fun a => ih elem a (by simp only [schemaDepth] at h; omega)
          simp only [freeChildrenChecked, cyaml__free_children,
            freeSequenceChecked, cyaml__free_sequence]
          cases cyaml_data_read cs (d + co) m with
          | none => rfl
          | some k =>
            show Option.map (fun xs => Event.read (d + co) cs :: xs)
                (seqElemsChecked (fun v a => freeChecked F cfg v a m)
                  elem d m sp k) =
              some (Event.read (d + co) cs ::
                cyaml__seq_elems (fun v a => freeFuel F cfg v a m)
                  elem d m sp k)
            rw [@seqElemsChecked_eq (fun v a => freeFuel F cfg v a m)
              (fun v a => freeChecked F cfg v a m) elem d m sp k he]
            rfl
        | sequenceFixed sp ds elem mx =>
          have he : ∀ a, freeChecked F cfg elem a m =
              some (freeFuel F cfg elem a m) :=
            fun a => ih elem a (by simp only [schemaDepth] at h; omega)
          simp only [freeChildrenChecked, cyaml__free_children,
            freeSequenceChecked, cyaml__free_sequence]
          exact @seqElemsChecked_eq (fun v a => freeFuel F cfg v a m)
            (fun v a => freeChecked F cfg v a m) elem d m sp mx he
      rw [hch]
      rfl

/-- A trace whose first event is not a free (so appending it after another
trace cannot create an unlogged free at the boundary). -/
def headSafe : List Event → Bool
  | Event.free _ :: _ => false
  | _ => true

theorem headSafe_append {xs ys : List Event} (hx : headSafe xs = true)
    (hy : headSafe ys = true) : headSafe (xs ++ ys) = true := by
  cases xs with
  | nil => simpa using hy
  | cons x l =>
    cases x with
    | free a => simp [headSafe] at hx
    | call a => rfl
    | read a n => rfl
    | log a => rfl

theorem freesLogged_append (ys : List Event) (hy : headSafe ys = true) :
    ∀ xs, freesLogged (xs ++ ys) = (freesLogged xs && freesLogged ys) := by
  intro xs
  induction xs using freesLogged.induct with
  | case1 => simp [freesLogged]
  | case2 a b rest ih =>
    simp only [List.cons_append, freesLogged, List.append_eq, ih,
      Bool.and_assoc]
  | case3 a rest ih =>
    simp only [List.cons_append, freesLogged, List.append_eq, ih,
      Bool.and_assoc]
  | case4 x rest hx1 hx2 ih =>
    cases rest with
    | cons y l =>
      cases x with
      | free a => exact (hx2 a rfl).elim
      | call a => simpa [freesLogged] using ih
      | read a n => simpa [freesLogged] using ih
      | log a =>
        cases y with
        | free b => exact (hx1 a b l rfl rfl).elim
        | call b => simpa [freesLogged] using ih
        | read b n => simpa [freesLogged] using ih
        | log b => simpa [freesLogged] using ih
    | nil =>
      cases x with
      | free a => exact (hx2 a rfl).elim
      | call a =>
        cases ys with
        | nil => simp [freesLogged]
        | cons y l =>
          cases y with
          | free b => simp [headSafe] at hy
          | call b => simp [freesLogged]
          | read b n => simp [freesLogged]
          | log b => simp [freesLogged]
      | read a n =>
        cases ys with
        | nil => simp [freesLogged]
        | cons y l =>
          cases y with
          | free b => simp [headSafe] at hy
          | call b => simp [freesLogged]
          | read b n2 => simp [freesLogged]
          | log b => simp [freesLogged]
      | log a =>
        cases ys with
        | nil => simp [freesLogged]
        | cons y l =>
          cases y with
          | free b => simp [headSafe] at hy
          | call b => simp [freesLogged]
          | read b n => simp [freesLogged]
          | log b => simp [freesLogged]

theorem flatMap_headSafe_freesLogged {α : Type} (l : List α)
    (f : α → List Event)
    (h : ∀ x ∈ l, headSafe (f x) = true ∧ freesLogged (f x) = true) :
    headSafe (l.flatMap f) = true ∧ freesLogged (l.flatMap f) = true := by
  induction l with
  | nil => exact ⟨rfl, rfl⟩
  | cons x xs ih =>
    have hx := h x (by simp)
    have hxs := ih (fun y hy => h y (by simp [hy]))
    simp only [List.flatMap_cons]
    refine ⟨headSafe_append hx.1 hxs.1, ?_⟩
    rw [freesLogged_append _ hxs.1, hx.2, hxs.2]
    rfl

theorem cyaml__free_own_ok (s : Schema) (d : Nat) (m : Mem) :
    headSafe (cyaml__free_own s d m) = true ∧
      freesLogged (cyaml__free_own s d m) = true := by
  unfold cyaml__free_own
  by_cases hp : s.pointer = true
  · simp only [if_pos hp]
    cases cyaml_data_read PTR_SIZE d m with
    | none => exact ⟨rfl, rfl⟩
    | some p => exact ⟨rfl, by simp [freesLogged]⟩
  · simp only [if_neg hp]
    exact ⟨rfl, rfl⟩

theorem cyaml__seq_elems_ok {recur : Schema → Nat → List Event}
    (schema : Schema) (d : Nat) (m : Mem) (sp : Bool) (k : Nat)
    (h : ∀ a, headSafe (recur schema a) = true ∧
      freesLogged (recur schema a) = true) :
    headSafe (cyaml__seq_elems recur schema d m sp k) = true ∧
      freesLogged (cyaml__seq_elems recur schema d m sp k) = true := by
  unfold cyaml__seq_elems
  cases sp with
  | false =>
    simp only [if_neg Bool.false_ne_true]
    exact flatMap_headSafe_freesLogged _ _ (fun i _ => h _)
  | true =>
    simp only [eq_self_iff_true, if_true]
    cases cyaml_data_read PTR_SIZE d m with
    | none => exact ⟨rfl, rfl⟩
    | some p =>
      by_cases hp : p = 0
      · simp only [if_pos hp]
        exact ⟨rfl, rfl⟩
      · simp only [if_neg hp]
        have hfm := flatMap_headSafe_freesLogged (List.range k)
          (fun i => recur schema
            (p + (if schema.pointer = true then PTR_SIZE
                  else schema.dataSize) * i))
          (fun i _ => h _)
        refine ⟨rfl, ?_⟩
        show freesLogged (Event.read d PTR_SIZE :: _) = true
        simp only [freesLogged]
        exact hfm.2

theorem cyaml__free_mapping_ok {recur : Schema → Nat → List Event} :
    ∀ (fs : Fields) (d : Nat),
      (∀ o v, (o, v) ∈ fs.toList → ∀ a,
        headSafe (recur v a) = true ∧ freesLogged (recur v a) = true) →
      headSafe (cyaml__free_mapping recur fs d) = true ∧
        freesLogged (cyaml__free_mapping recur fs d) = true
  | .nil, _, _ => ⟨rfl, rfl⟩
  | .cons o v r, d, h => by
    have hv := h o v (by simp [Fields.toList]) (d + o)
    have hr := cyaml__free_mapping_ok r d
      (fun o' v' hm a => h o' v' (by simp [Fields.toList, hm]) a)
    simp only [cyaml__free_mapping]
    exact ⟨headSafe_append hv.1 hr.1,
      by rw [freesLogged_append _ hr.1, hv.2, hr.2]; rfl⟩

theorem headSafe_freeFuel (fuel : Nat) (cfg : Config) (s : Schema) (d : Nat)
    (m : Mem) : headSafe (freeFuel fuel cfg s d m) = true := by
  cases fuel with
  | zero => rfl
  | succ F => rfl

/-- Every free performed by the dispatch core is immediately preceded by a
log event carrying the same address, at every fuel amount. -/
theorem freesLogged_freeFuel (cfg : Config) (m : Mem) :
    ∀ (fuel : Nat) (s : Schema) (d : Nat),
      freesLogged (freeFuel fuel cfg s d m) = true := by
  intro fuel
  induction fuel with
  | zero => intro s d; rfl
  | succ F ih =>
    intro s d
    by_cases hd : d = 0
    · simp [hd, freeFuel, freesLogged]
    · simp only [freeFuel, if_neg hd]
      have hok : ∀ v a, headSafe (freeFuel F cfg v a m) = true ∧
          freesLogged (freeFuel F cfg v a m) = true :=
        fun v a => ⟨headSafe_freeFuel F cfg v a m, ih v a⟩
      have hch : headSafe (cyaml__free_children
            (fun v a => freeFuel F cfg v a m) s d m) = true ∧
          freesLogged (cyaml__free_children
            (fun v a => freeFuel F cfg v a m) s d m) = true := by
        cases s with
        | scalar p ds => exact ⟨rfl, rfl⟩
        | mapping p ds fs =>
          exact cyaml__free_mapping_ok fs d (fun o v _ a => hok v a)
        | sequence sp ds elem cs co =>
          simp only [cyaml__free_children, cyaml__free_sequence]
          cases cyaml_data_read cs (d + co) m with
          | none => exact ⟨rfl, rfl⟩
          | some k =>
            have hse := @cyaml__seq_elems_ok (fun v a => freeFuel F cfg v a m)
              elem d m sp k (fun a => hok elem a)
            refine ⟨rfl, ?_⟩
            show freesLogged (Event.read (d + co) cs :: _) = true
            simp only [freesLogged]
            exact hse.2
        | sequenceFixed sp ds elem mx =>
          simp only [cyaml__free_children, cyaml__free_sequence]
          exact @cyaml__seq_elems_ok (fun v a => freeFuel F cfg v a m)
            elem d m sp mx (fun a => hok elem a)
      have hown := cyaml__free_own_ok s d m
      show freesLogged (Event.call d :: _) = true
      simp only [freesLogged]
      rw [freesLogged_append _ hown.1, hch.2, hown.2]
      rfl

/-- The mapping walker distributes over concatenation of field lists: the
fields before and after any given point are traversed independently, in
order. -/
theorem cyaml__free_mapping_append (recur : Schema → Nat → List Event) :
    ∀ (fs1 fs2 : Fields) (d : Nat),
      cyaml__free_mapping recur (Fields.append fs1 fs2) d =
        cyaml__free_mapping recur fs1 d ++ cyaml__free_mapping recur fs2 d
  | .nil, fs2, d => by simp [Fields.append, cyaml__free_mapping]
  | .cons o v r, fs2, d => by
    simp [Fields.append, cyaml__free_mapping,
      cyaml__free_mapping_append recur r fs2 d]

/-- Replacing the dispatch at one fuel level below a sufficient amount by the
full dispatch core does not change the children traversal. -/
theorem cyaml__free_children_congr (n : Nat) (cfg : Config) (s : Schema)
    (d : Nat) (m : Mem) (h : schemaDepth s ≤ n + 1) :
    cyaml__free_children (fun v a => freeFuel n cfg v a m) s d m =
      cyaml__free_children (fun v a => cyaml__free cfg v a m) s d m := by
  cases s with
  | scalar p ds => rfl
  | mapping p ds fs =>
    exact cyaml__free_mapping_congr fs d (fun o v hm a =>
      freeFuel_congr n n (schemaDepth v) cfg cfg v a m
        (le_trans (schemaDepth_le_fieldsDepth hm)
          (by simp only [schemaDepth] at h; omega))
        (le_refl _) (le_refl n))
  | sequence sp ds elem cs co =>
    have he : ∀ a, freeFuel n cfg elem a m = cyaml__free cfg elem a m :=
      fun a => freeFuel_congr n n (schemaDepth elem) cfg cfg elem a m
        (by simp only [schemaDepth] at h; omega) (le_refl _) (le_refl n)
    simp only [cyaml__free_children, cyaml__free_sequence]
    cases cyaml_data_read cs (d + co) m with
    | none => rfl
    | some k =>
      exact congrArg (fun l => Event.read (d + co) cs :: l)
        (@cyaml__seq_elems_congr (fun v a => freeFuel n cfg v a m)
          (fun v a => cyaml__free cfg v a m) elem d m sp k he)
  | sequenceFixed sp ds elem mx =>
    have he : ∀ a, freeFuel n cfg elem a m = cyaml__free cfg elem a m :=
      fun a => freeFuel_congr n n (schemaDepth elem) cfg cfg elem a m
        (by simp only [schemaDepth] at h; omega) (le_refl _) (le_refl n)
    simp only [cyaml__free_children, cyaml__free_sequence]
    exact @cyaml__seq_elems_congr (fun v a => freeFuel n cfg v a m)
      (fun v a => cyaml__free cfg v a m) elem d m sp mx he

/-! ### Claim theorems -/

/-- C5: the entry point returns the missing-configuration status on a null
configuration and the missing-schema status on a null schema, in both cases
performing no event at all — no read, no traversal, no release of data; with
both arguments present it always returns the success status CYAML_OK, so no
partial-failure status exists and internal decode errors never change the
returned status. -/
theorem cyaml_free_argument_validation :
    (∀ (schema : Option Schema) (d : Nat) (m : Mem),
      cyaml_free none schema d m = (CyamlErr.errBadParamNullConfig, [])) ∧
    (∀ (cfg : Config) (d : Nat) (m : Mem),
      cyaml_free (some cfg) none d m = (CyamlErr.errBadParamNullSchema, [])) ∧
    (∀ (cfg : Config) (s : Schema) (d : Nat) (m : Mem),
      (cyaml_free (some cfg) (some s) d m).1 = CyamlErr.ok) :=
  ⟨fun _ _ _ => rfl, fun _ _ _ => rfl, fun _ _ _ _ => rfl⟩

/-- C6: dispatching on a null data address is a no-op — the trace records
only the invocation itself: no memory read, no nested dispatch, no release;
at the top level, cyaml_free with non-null config and schema but null data
returns CYAML_OK, traverses nothing, and releases nothing (the entry point
still calls free on the null root, which releases nothing). -/
theorem cyaml__free_null_data_noop :
    ∀ (cfg : Config) (s : Schema) (m : Mem),
      cyaml__free cfg s 0 m = [Event.call 0] ∧
      cyaml_free (some cfg) (some s) 0 m =
        (CyamlErr.ok, [Event.call 0, Event.free 0]) ∧
      releasesOf (cyaml_free (some cfg) (some s) 0 m).2 = [] := by
  intro cfg s m
  have h1 : cyaml__free cfg s 0 m = [Event.call 0] := by
    unfold cyaml__free
    obtain ⟨n, hn⟩ : ∃ n, schemaDepth s = n + 1 :=
      ⟨schemaDepth s - 1, by have := schemaDepth_pos s; omega⟩
    rw [hn]
    simp [freeFuel]
  have h2 : cyaml_free (some cfg) (some s) 0 m =
      (CyamlErr.ok, [Event.call 0, Event.free 0]) := by
    simp [cyaml_free, h1]
  refine ⟨h1, h2, ?_⟩
  rw [h2]
  rfl

/-- C10: two runs of cyaml_free with any two non-null configurations on the
same schema, data address and memory contents produce identical traces — in
particular they release exactly the same addresses in the same order — and
return the same status: the configuration is only handed to the logging
collaborator, never consulted to decide what to free or what to return. -/
theorem cyaml_free_config_independent :
    ∀ (c1 c2 : Config) (s : Schema) (d : Nat) (m : Mem),
      cyaml_free (some c1) (some s) d m = cyaml_free (some c2) (some s) d m := by
  intro c1 c2 s d m
  have h : cyaml__free c1 s d m = cyaml__free c2 s d m :=
    freeFuel_congr (schemaDepth s) (schemaDepth s) (schemaDepth s) c1 c2 s d m
      (le_refl _) (le_refl _) (le_refl _)
  simp [cyaml_free, h]

/-- C9: the traversal terminates and its recursion depth is bounded by the
schema's nesting depth, not by the data: with fuel at least schemaDepth s —
for every data address and every memory, hence for every stored element
count — the depth-checked dispatch core completes without fuel exhaustion
and computes exactly cyaml__free.  Sequence elements are all dispatched one
single level below the sequence node, so iterating a sequence adds one
recursion level regardless of the element count. -/
theorem freeChecked_completes_at_schema_depth (cfg : Config) (s : Schema)
    (d : Nat) (m : Mem) (fuel : Nat) (h : schemaDepth s ≤ fuel) :
    freeChecked fuel cfg s d m = some (cyaml__free cfg s d m) := by
  rw [freeChecked_eq cfg m fuel s d h]
  exact congrArg some
    (freeFuel_congr fuel fuel (schemaDepth s) cfg cfg s d m h (le_refl _)
      (le_refl _))

/-- Witness for C9: for the two-level mapping schema sW1 the depth is 2, and
running the depth-checked core with fuel 2 at data address 1000 in memory
memW1 succeeds and agrees with cyaml__free. -/
theorem freeChecked_completes_at_schema_depth_witness :
    schemaDepth sW1 ≤ 2 ∧
    freeChecked 2 cfgW sW1 1000 memW1 = some (cyaml__free cfgW sW1 1000 memW1)
    := ⟨by decide,
      freeChecked_completes_at_schema_depth cfgW sW1 1000 memW1 2 (by decide)⟩

/-- C8 counterexample: the root release performed by the entry point is not
preceded by any log event.  With the non-pointer scalar root schema at data
address 5 the full trace of cyaml_free is [call 5, free 5]: address 5 is
released immediately after the dispatch-call event with no log carrying 5,
so freesLogged rejects the entry-point trace, refuting the claim that every
actual release — including the root's — is immediately preceded by a
diagnostic log message. -/
theorem cyaml_free_root_release_unlogged :
    cyaml_free (some cfgW) (some (Schema.scalar false 4)) 5 memZero =
      (CyamlErr.ok, [Event.call 5, Event.free 5]) ∧
    freesLogged
      (cyaml_free (some cfgW) (some (Schema.scalar false 4)) 5 memZero).2 =
      false := by
  constructor
  · rfl
  · rfl

/-- C8 amended: every release performed by the recursive dispatch core is
immediately preceded by a cyaml__log event carrying the very address being
released; the root release performed by the entry point is the exception —
the entry point appends its free of the root with no log of its own. -/
theorem cyaml__free_releases_logged :
    ∀ (cfg : Config) (s : Schema) (d : Nat) (m : Mem),
      freesLogged (cyaml__free cfg s d m) = true ∧
      (cyaml_free (some cfg) (some s) d m).2 =
        cyaml__free cfg s d m ++ [Event.free d] :=
  fun cfg s d m =>
    ⟨freesLogged_freeFuel cfg m (schemaDepth s) s d, rfl⟩

/-- C2: post-order release.  For any pointer-owned schema node at a non-null
address whose stored pointer decodes to p, the dispatch trace is exactly the
invocation event, then the complete children traversal, then the release of
the node's own allocation p: every release performed for the node's
descendants occurs strictly before the node's own allocation is released,
and the node's own release is the final event of its subtree trace. -/
theorem cyaml__free_postorder (cfg : Config) (s : Schema) (d : Nat) (m : Mem)
    (p : Nat) (hp : s.pointer = true) (hd : d ≠ 0)
    (hr : cyaml_data_read PTR_SIZE d m = some p) :
    cyaml__free cfg s d m =
      Event.call d ::
        (cyaml__free_children (fun v a => cyaml__free cfg v a m) s d m ++
          [Event.read d PTR_SIZE, Event.log p, Event.free p]) ∧
    freesOf (cyaml__free cfg s d m) =
      freesOf (cyaml__free_children (fun v a => cyaml__free cfg v a m) s d m)
        ++ [p] := by
  obtain ⟨n, hn⟩ : ∃ n, schemaDepth s = n + 1 :=
    ⟨schemaDepth s - 1, by have := schemaDepth_pos s; omega⟩
  have hown : cyaml__free_own s d m =
      [Event.read d PTR_SIZE, Event.log p, Event.free p] := by
    unfold cyaml__free_own
    rw [if_pos hp, hr]
  have h1 : cyaml__free cfg s d m =
      Event.call d ::
        (cyaml__free_children (fun v a => cyaml__free cfg v a m) s d m ++
          [Event.read d PTR_SIZE, Event.log p, Event.free p]) := by
    conv_lhs =>
      rw [show cyaml__free cfg s d m = freeFuel (schemaDepth s) cfg s d m
        from rfl, hn]
    simp only [freeFuel, if_neg hd]
    rw [cyaml__free_children_congr n cfg s d m (by omega), hown]
  refine ⟨h1, ?_⟩
  rw [h1]
  simp

/-- Witness for C2: the pointer-owned mapping sW2 at address 1000 in memory
memW1 owns allocation 2000 and has a pointer-owned scalar field at offset 8
owning allocation 3000; the child's release of 3000 occurs inside the
children segment, strictly before the node's own release of 2000, which is
last. -/
theorem cyaml__free_postorder_witness :
    cyaml__free cfgW sW2 1000 memW1 =
      Event.call 1000 ::
        (cyaml__free_children (fun v a => cyaml__free cfgW v a memW1)
          sW2 1000 memW1 ++
          [Event.read 1000 PTR_SIZE, Event.log 2000, Event.free 2000]) ∧
    freesOf (cyaml__free cfgW sW2 1000 memW1) =
      freesOf (cyaml__free_children (fun v a => cyaml__free cfgW v a memW1)
        sW2 1000 memW1) ++ [2000] :=
  cyaml__free_postorder cfgW sW2 1000 memW1 2000 rfl (by decide) (by decide)

/-- C3 counterexample: a pointer-owned SEQUENCE whose stored count decodes
successfully to 2 but whose stored element pointer is null performs zero
element dispatches — the only dispatch-call event in the whole trace is the
one on the sequence node itself — refuting the claim that a stored count
decoding to k always yields exactly k element recursions.  (In memNullPtr
the count byte at address 24 holds 2 and the stored pointer bytes 16..23 are
all zero.) -/
theorem cyaml__free_sequence_null_pointer_skips_elements :
    cyaml_data_read 1 (16 + 8) memNullPtr = some 2 ∧
    callsOf (cyaml__free cfgW seqPtr 16 memNullPtr) = [16] := by
  constructor
  · decide
  · decide

/-- C3 amended: element-count fidelity holds once the element base address
resolves.  Provided the node's data address is non-null: a by-value SEQUENCE
whose stored count decodes to k dispatches exactly k times, once per element
in index order at stride (pointer size for pointer-owned elements, else the
element's data_size); a pointer-owned SEQUENCE whose stored count decodes to
k and whose stored pointer decodes to a non-null base p dispatches exactly k
times from p, then releases its own pointer; a by-value SEQUENCE_FIXED
dispatches exactly max times and performs no read of any runtime count; a
pointer-owned SEQUENCE_FIXED whose stored pointer decodes to a non-null base
p dispatches exactly max times from p, then releases its own pointer; and a
pointer-owned sequence of either kind whose stored pointer decodes to null
dispatches zero times — even though, for SEQUENCE, its stored count decoded
successfully. -/
theorem cyaml__free_sequence_count_fidelity (cfg : Config)
    (ds cs co : Nat) (elem : Schema) (d : Nat) (m : Mem) (k : Nat)
    (hd : d ≠ 0) :
    (cyaml_data_read cs (d + co) m = some k →
      cyaml__free cfg (Schema.sequence false ds elem cs co) d m =
        Event.call d :: Event.read (d + co) cs ::
          (List.range k).flatMap (fun i => cyaml__free cfg elem
            (d + (if elem.pointer = true then PTR_SIZE
                  else elem.dataSize) * i) m)) ∧
    (∀ mx, cyaml__free cfg (Schema.sequenceFixed false ds elem mx) d m =
      Event.call d ::
        (List.range mx).flatMap (fun i => cyaml__free cfg elem
          (d + (if elem.pointer = true then PTR_SIZE
                else elem.dataSize) * i) m)) ∧
    (cyaml_data_read cs (d + co) m = some k →
      cyaml_data_read PTR_SIZE d m = some 0 →
      callsOf (cyaml__free cfg (Schema.sequence true ds elem cs co) d m) =
        [d]) ∧
    (∀ p, cyaml_data_read cs (d + co) m = some k →
      cyaml_data_read PTR_SIZE d m = some p → p ≠ 0 →
      cyaml__free cfg (Schema.sequence true ds elem cs co) d m =
        Event.call d ::
          ((Event.read (d + co) cs :: Event.read d PTR_SIZE ::
            (List.range k).flatMap (fun i => cyaml__free cfg elem
              (p + (if elem.pointer = true then PTR_SIZE
                    else elem.dataSize) * i) m)) ++
            [Event.read d PTR_SIZE, Event.log p, Event.free p])) ∧
    (∀ mx p, cyaml_data_read PTR_SIZE d m = some p → p ≠ 0 →
      cyaml__free cfg (Schema.sequenceFixed true ds elem mx) d m =
        Event.call d ::
          ((Event.read d PTR_SIZE ::
            (List.range mx).flatMap (fun i => cyaml__free cfg elem
              (p + (if elem.pointer = true then PTR_SIZE
                    else elem.dataSize) * i) m)) ++
            [Event.read d PTR_SIZE, Event.log p, Event.free p])) ∧
    (∀ mx, cyaml_data_read PTR_SIZE d m = some 0 →
      callsOf (cyaml__free cfg (Schema.sequenceFixed true ds elem mx) d m) =
        [d]) := by
  refine ⟨?_, ?_, ?_, ?_, ?_, ?_⟩
  · intro hr
    have hdep : schemaDepth (Schema.sequence false ds elem cs co) =
        schemaDepth elem + 1 := by
      simp [schemaDepth, Nat.add_comm]
    conv_lhs =>
      rw [show cyaml__free cfg (Schema.sequence false ds elem cs co) d m =
        freeFuel (schemaDepth (Schema.sequence false ds elem cs co))
          cfg (Schema.sequence false ds elem cs co) d m from rfl, hdep]
    simp only [freeFuel, if_neg hd, cyaml__free_children,
      cyaml__free_sequence, hr, cyaml__seq_elems, cyaml__free_own,
      Schema.pointer, if_neg Bool.false_ne_true, List.append_nil]
    rfl
  · intro mx
    have hdep : schemaDepth (Schema.sequenceFixed false ds elem mx) =
        schemaDepth elem + 1 := by
      simp [schemaDepth, Nat.add_comm]
    conv_lhs =>
      rw [show cyaml__free cfg (Schema.sequenceFixed false ds elem mx) d m =
        freeFuel (schemaDepth (Schema.sequenceFixed false ds elem mx))
          cfg (Schema.sequenceFixed false ds elem mx) d m from rfl, hdep]
    simp only [freeFuel, if_neg hd, cyaml__free_children,
      cyaml__free_sequence, cyaml__seq_elems, cyaml__free_own,
      Schema.pointer, if_neg Bool.false_ne_true, List.append_nil]
    rfl
  · intro hr hr0
    have hdep : schemaDepth (Schema.sequence true ds elem cs co) =
        schemaDepth elem + 1 := by
      simp [schemaDepth, Nat.add_comm]
    rw [show cyaml__free cfg (Schema.sequence true ds elem cs co) d m =
      freeFuel (schemaDepth (Schema.sequence true ds elem cs co))
        cfg (Schema.sequence true ds elem cs co) d m from rfl, hdep]
    simp only [freeFuel, if_neg hd, cyaml__free_children,
      cyaml__free_sequence, hr, cyaml__seq_elems, cyaml__free_own,
      Schema.pointer, eq_self_iff_true, if_true, hr0]
    rfl
  · intro p hr hp hp0
    have hdep : schemaDepth (Schema.sequence true ds elem cs co) =
        schemaDepth elem + 1 := by
      simp [schemaDepth, Nat.add_comm]
    conv_lhs =>
      rw [show cyaml__free cfg (Schema.sequence true ds elem cs co) d m =
        freeFuel (schemaDepth (Schema.sequence true ds elem cs co))
          cfg (Schema.sequence true ds elem cs co) d m from rfl, hdep]
    simp only [freeFuel, if_neg hd, cyaml__free_children,
      cyaml__free_sequence, hr, cyaml__seq_elems, cyaml__free_own,
      Schema.pointer, eq_self_iff_true, if_true, hp, if_neg hp0]
    rfl
  · intro mx p hp hp0
    have hdep : schemaDepth (Schema.sequenceFixed true ds elem mx) =
        schemaDepth elem + 1 := by
      simp [schemaDepth, Nat.add_comm]
    conv_lhs =>
      rw [show cyaml__free cfg (Schema.sequenceFixed true ds elem mx) d m =
        freeFuel (schemaDepth (Schema.sequenceFixed true ds elem mx))
          cfg (Schema.sequenceFixed true ds elem mx) d m from rfl, hdep]
    simp only [freeFuel, if_neg hd, cyaml__free_children,
      cyaml__free_sequence, cyaml__seq_elems, cyaml__free_own,
      Schema.pointer, eq_self_iff_true, if_true, hp, if_neg hp0]
    rfl
  · intro mx hp0
    have hdep : schemaDepth (Schema.sequenceFixed true ds elem mx) =
        schemaDepth elem + 1 := by
      simp [schemaDepth, Nat.add_comm]
    rw [show cyaml__free cfg (Schema.sequenceFixed true ds elem mx) d m =
      freeFuel (schemaDepth (Schema.sequenceFixed true ds elem mx))
        cfg (Schema.sequenceFixed true ds elem mx) d m from rfl, hdep]
    simp only [freeFuel, if_neg hd, cyaml__free_children,
      cyaml__free_sequence, cyaml__seq_elems, cyaml__free_own,
      Schema.pointer, eq_self_iff_true, if_true, hp0]
    rfl

/-- Witness for the amended C3.  At base address 50 in memory memCount58
(one count byte 2 at address 58, all else zero): the by-value sequence
seqVal dispatches exactly twice (elements at 50 and 54), the fixed sequence
seqFix dispatches exactly three times with no count read, and a
pointer-owned SEQUENCE whose stored pointer bytes are zero dispatches no
element although its count decodes to 2.  At slot 16 in memory memPtr2000
(stored pointer 2000, count byte 2 at address 24): the pointer-owned
sequence seqPtr dispatches exactly twice from base 2000, and a pointer-owned
two-element SEQUENCE_FIXED dispatches exactly twice from base 2000; in
memNullPtr (stored pointer zero) that same fixed sequence dispatches no
element. -/
theorem cyaml__free_sequence_count_fidelity_witness :
    (cyaml__free cfgW seqVal 50 memCount58 =
      Event.call 50 :: Event.read 58 1 ::
        (List.range 2).flatMap (fun i => cyaml__free cfgW
          (Schema.scalar false 4) (50 + 4 * i) memCount58)) ∧
    (cyaml__free cfgW seqFix 50 memCount58 =
      Event.call 50 ::
        (List.range 3).flatMap (fun i => cyaml__free cfgW
          (Schema.scalar false 4) (50 + 4 * i) memCount58)) ∧
    callsOf (cyaml__free cfgW
      (Schema.sequence true 4 (Schema.scalar false 4) 1 8) 50 memCount58) =
      [50] ∧
    (cyaml__free cfgW seqPtr 16 memPtr2000 =
      Event.call 16 ::
        ((Event.read 24 1 :: Event.read 16 PTR_SIZE ::
          (List.range 2).flatMap (fun i => cyaml__free cfgW
            (Schema.scalar false 4) (2000 + 4 * i) memPtr2000)) ++
          [Event.read 16 PTR_SIZE, Event.log 2000, Event.free 2000])) ∧
    (cyaml__free cfgW
        (Schema.sequenceFixed true 4 (Schema.scalar false 4) 2)
        16 memPtr2000 =
      Event.call 16 ::
        ((Event.read 16 PTR_SIZE ::
          (List.range 2).flatMap (fun i => cyaml__free cfgW
            (Schema.scalar false 4) (2000 + 4 * i) memPtr2000)) ++
          [Event.read 16 PTR_SIZE, Event.log 2000, Event.free 2000])) ∧
    callsOf (cyaml__free cfgW
      (Schema.sequenceFixed true 4 (Schema.scalar false 4) 2)
      16 memNullPtr) = [16] := by
  have h := cyaml__free_sequence_count_fidelity cfgW 4 1 8
    (Schema.scalar false 4) 50 memCount58 2 (by decide)
  have h2 := cyaml__free_sequence_count_fidelity cfgW 4 1 8
    (Schema.scalar false 4) 16 memPtr2000 2 (by decide)
  have h3 := cyaml__free_sequence_count_fidelity cfgW 4 1 8
    (Schema.scalar false 4) 16 memNullPtr 2 (by decide)
  exact ⟨h.1 (by decide), h.2.1 3, h.2.2.1 (by decide) (by decide),
    h2.2.2.2.1 2000 (by decide) (by decide) (by decide),
    h2.2.2.2.2.1 2 2000 (by decide) (by decide),
    h3.2.2.2.2.2 2 (by decide)⟩

/-- C4: decode-error containment.  (1) When the stored-count decode of a
SEQUENCE node fails, the sequence walker performs only that single read —
no element dispatch, no release — and simply returns to its caller.  (2) The
mapping walker traverses a field list as the plain concatenation of the
traces of the fields before a point and the fields from that point on, for
any dispatch: each sibling field's trace, and so its releases, is computed
independently of the faulty field's, whether it is processed before or
after it; only the faulty sequence's elements are skipped. -/
theorem cyaml__free_sequence_decode_error_contained :
    (∀ (recur : Schema → Nat → List Event) (sp : Bool) (ds cs co : Nat)
        (elem : Schema) (d : Nat) (m : Mem),
      cyaml_data_read cs (d + co) m = none →
      cyaml__free_sequence recur (Schema.sequence sp ds elem cs co) d m =
        [Event.read (d + co) cs]) ∧
    (∀ (recur : Schema → Nat → List Event) (fs1 fs2 : Fields) (d : Nat),
      cyaml__free_mapping recur (Fields.append fs1 fs2) d =
        cyaml__free_mapping recur fs1 d ++ cyaml__free_mapping recur fs2 d)
    := by
  constructor
  · intro recur sp ds cs co elem d m hf
    simp only [cyaml__free_sequence, hf]
  · exact fun recur fs1 fs2 d => cyaml__free_mapping_append recur fs1 fs2 d

/-- Witness for C4: the walker on seqBadCount (count width 3, an unsupported
width, so the decode fails) at address 10 produces only the read event, and
the mapping walker on the two-field list fldsA ++ fldsB is the concatenation
of the two single-field walks. -/
theorem cyaml__free_sequence_decode_error_contained_witness :
    cyaml__free_sequence recurW
      (Schema.sequence false 4 (Schema.scalar false 4) 3 0) 10 memZero =
      [Event.read (10 + 0) 3] ∧
    cyaml__free_mapping recurW (Fields.append fldsA fldsB) 10 =
      cyaml__free_mapping recurW fldsA 10 ++
        cyaml__free_mapping recurW fldsB 10 :=
  ⟨cyaml__free_sequence_decode_error_contained.1 recurW false 4 3 0
      (Schema.scalar false 4) 10 memZero (by decide),
    cyaml__free_sequence_decode_error_contained.2 recurW fldsA fldsB 10⟩

/-- C7: element base address and stride resolution of the sequence walker,
for any dispatch and for both sequence kinds.  With the stored count
decoding to k for SEQUENCE, or the fixed maximum for SEQUENCE_FIXED: a
by-value sequence node iterates its elements inline from the node's own
address (a SEQUENCE_FIXED walk performing no read at all); a pointer-owned
sequence node first reads the pointer-sized value stored at its address —
dispatching on elements from that decoded base when it is non-null, and
aborting the walk with no element dispatch when it is null (the
pointer-sized read itself never fails).  In every walk the per-element
stride is the pointer size when the element schema is pointer-owned and the
element schema's data_size otherwise. -/
theorem cyaml__free_sequence_base_and_stride
    (recur : Schema → Nat → List Event) (ds cs co : Nat) (elem : Schema)
    (d : Nat) (m : Mem) (k : Nat)
    (hr : cyaml_data_read cs (d + co) m = some k) :
    (cyaml__free_sequence recur (Schema.sequence false ds elem cs co) d m =
      Event.read (d + co) cs ::
        (List.range k).flatMap (fun i => recur elem
          (d + (if elem.pointer = true then PTR_SIZE
                else elem.dataSize) * i))) ∧
    (∀ p, cyaml_data_read PTR_SIZE d m = some p → p ≠ 0 →
      cyaml__free_sequence recur (Schema.sequence true ds elem cs co) d m =
        Event.read (d + co) cs :: Event.read d PTR_SIZE ::
          (List.range k).flatMap (fun i => recur elem
            (p + (if elem.pointer = true then PTR_SIZE
                  else elem.dataSize) * i))) ∧
    (cyaml_data_read PTR_SIZE d m = some 0 →
      cyaml__free_sequence recur (Schema.sequence true ds elem cs co) d m =
        [Event.read (d + co) cs, Event.read d PTR_SIZE]) ∧
    (∀ mx,
      cyaml__free_sequence recur (Schema.sequenceFixed false ds elem mx) d m =
        (List.range mx).flatMap (fun i => recur elem
          (d + (if elem.pointer = true then PTR_SIZE
                else elem.dataSize) * i))) ∧
    (∀ mx p, cyaml_data_read PTR_SIZE d m = some p → p ≠ 0 →
      cyaml__free_sequence recur (Schema.sequenceFixed true ds elem mx) d m =
        Event.read d PTR_SIZE ::
          (List.range mx).flatMap (fun i => recur elem
            (p + (if elem.pointer = true then PTR_SIZE
                  else elem.dataSize) * i))) ∧
    (∀ mx, cyaml_data_read PTR_SIZE d m = some 0 →
      cyaml__free_sequence recur (Schema.sequenceFixed true ds elem mx) d m =
        [Event.read d PTR_SIZE]) := by
  refine ⟨?_, ?_, ?_, ?_, ?_, ?_⟩
  · simp only [cyaml__free_sequence, hr, cyaml__seq_elems,
      if_neg Bool.false_ne_true]
  · intro p hp hp0
    simp only [cyaml__free_sequence, hr, cyaml__seq_elems,
      eq_self_iff_true, if_true, hp, if_neg hp0]
  · intro hp
    simp only [cyaml__free_sequence, hr, cyaml__seq_elems,
      eq_self_iff_true, if_true, hp]
  · intro mx
    simp only [cyaml__free_sequence, cyaml__seq_elems,
      if_neg Bool.false_ne_true]
  · intro mx p hp hp0
    simp only [cyaml__free_sequence, cyaml__seq_elems,
      eq_self_iff_true, if_true, hp, if_neg hp0]
  · intro mx hp
    simp only [cyaml__free_sequence, cyaml__seq_elems,
      eq_self_iff_true, if_true, hp]

/-- Witness for C7: at slot 16 with count byte 2 at address 24 — in
memPtr2000 the slot stores pointer 2000, in memNullPtr it stores null.  The
by-value SEQUENCE walk iterates inline from 16 with stride 4; the
pointer-owned SEQUENCE walk over memPtr2000 iterates from 2000 with stride
4; the pointer-owned SEQUENCE walk over memNullPtr stops after the two reads
with no element dispatch.  A by-value three-element SEQUENCE_FIXED walk
iterates inline from 16 with no read at all; a pointer-owned two-element
SEQUENCE_FIXED walk over memPtr2000 iterates from 2000 after the single
pointer read, and over memNullPtr it stops after that read with no element
dispatch. -/
theorem cyaml__free_sequence_base_and_stride_witness :
    (cyaml__free_sequence recurW
      (Schema.sequence false 4 (Schema.scalar false 4) 1 8) 16 memPtr2000 =
      Event.read 24 1 ::
        (List.range 2).flatMap (fun i => recurW (Schema.scalar false 4)
          (16 + 4 * i))) ∧
    (cyaml__free_sequence recurW seqPtr 16 memPtr2000 =
      Event.read 24 1 :: Event.read 16 PTR_SIZE ::
        (List.range 2).flatMap (fun i => recurW (Schema.scalar false 4)
          (2000 + 4 * i))) ∧
    cyaml__free_sequence recurW seqPtr 16 memNullPtr =
      [Event.read 24 1, Event.read 16 PTR_SIZE] ∧
    (cyaml__free_sequence recurW seqFix 16 memPtr2000 =
      (List.range 3).flatMap (fun i => recurW (Schema.scalar false 4)
        (16 + 4 * i))) ∧
    (cyaml__free_sequence recurW
      (Schema.sequenceFixed true 4 (Schema.scalar false 4) 2) 16 memPtr2000 =
      Event.read 16 PTR_SIZE ::
        (List.range 2).flatMap (fun i => recurW (Schema.scalar false 4)
          (2000 + 4 * i))) ∧
    cyaml__free_sequence recurW
      (Schema.sequenceFixed true 4 (Schema.scalar false 4) 2) 16 memNullPtr =
      [Event.read 16 PTR_SIZE] :=
  ⟨(cyaml__free_sequence_base_and_stride recurW 4 1 8 (Schema.scalar false 4)
      16 memPtr2000 2 (by decide)).1,
    (cyaml__free_sequence_base_and_stride recurW 4 1 8 (Schema.scalar false 4)
      16 memPtr2000 2 (by decide)).2.1 2000 (by decide) (by decide),
    (cyaml__free_sequence_base_and_stride recurW 4 1 8 (Schema.scalar false 4)
      16 memNullPtr 2 (by decide)).2.2.1 (by decide),
    (cyaml__free_sequence_base_and_stride recurW 4 1 8 (Schema.scalar false 4)
      16 memPtr2000 2 (by decide)).2.2.2.1 3,
    (cyaml__free_sequence_base_and_stride recurW 4 1 8 (Schema.scalar false 4)
      16 memPtr2000 2 (by decide)).2.2.2.2.1 2 2000 (by decide) (by decide),
    (cyaml__free_sequence_base_and_stride recurW 4 1 8 (Schema.scalar false 4)
      16 memNullPtr 2 (by decide)).2.2.2.2.2 2 (by decide)⟩

/-- C1: on a well-formed schema/data pair — the owned allocations reachable
through the schema, together with the root address, are pairwise distinct
(exclusive ownership, no aliasing) and none of them is null — a cyaml_free
call with non-null config and schema returns CYAML_OK and releases exactly
the reachable owned allocations followed by the root allocation, each
exactly once: no reachable allocation is released zero times and none is
released twice. -/
theorem cyaml_free_releases_each_allocation_once (cfg : Config) (s : Schema)
    (d : Nat) (m : Mem)
    (hnodup : (ownedAllocs s d m ++ [d]).Nodup)
    (hnz : (0 : Nat) ∉ ownedAllocs s d m ++ [d]) :
    (cyaml_free (some cfg) (some s) d m).1 = CyamlErr.ok ∧
    releasesOf (cyaml_free (some cfg) (some s) d m).2 =
      ownedAllocs s d m ++ [d] ∧
    ∀ a ∈ ownedAllocs s d m ++ [d],
      (releasesOf (cyaml_free (some cfg) (some s) d m).2).count a = 1 := by
  have h0 : freesOf (cyaml__free cfg s d m) = ownedAllocs s d m :=
    freesOf_freeFuel cfg m (schemaDepth s) s d
  have hfr : freesOf (cyaml_free (some cfg) (some s) d m).2 =
      ownedAllocs s d m ++ [d] := by
    show freesOf (cyaml__free cfg s d m ++ [Event.free d]) = _
    rw [freesOf_append, h0]
    rfl
  have hrel : releasesOf (cyaml_free (some cfg) (some s) d m).2 =
      ownedAllocs s d m ++ [d] := by
    unfold releasesOf
    rw [hfr]
    exact List.filter_eq_self.mpr
      (fun a ha => by
        have : a ≠ 0 := fun h => hnz (h ▸ ha)
        simpa using this)
  refine ⟨rfl, hrel, fun a ha => ?_⟩
  rw [hrel]
  exact List.count_eq_one_of_mem hnodup ha

/-- Witness for C1: the mapping sW1 at root address 1000 in memory memW1
reaches owned allocations 2000 and 3000; the call releases [2000, 3000,
1000], each address exactly once. -/
theorem cyaml_free_releases_each_allocation_once_witness :
    (cyaml_free (some cfgW) (some sW1) 1000 memW1).1 = CyamlErr.ok ∧
    releasesOf (cyaml_free (some cfgW) (some sW1) 1000 memW1).2 =
      ownedAllocs sW1 1000 memW1 ++ [1000] ∧
    (releasesOf (cyaml_free (some cfgW) (some sW1) 1000 memW1).2).count 2000
      = 1 ∧
    (releasesOf (cyaml_free (some cfgW) (some sW1) 1000 memW1).2).count 3000
      = 1 ∧
    (releasesOf (cyaml_free (some cfgW) (some sW1) 1000 memW1).2).count 1000
      = 1 := by
  have h := cyaml_free_releases_each_allocation_once cfgW sW1 1000 memW1
    (by decide) (by decide)
  exact ⟨h.1, h.2.1, h.2.2 2000 (by decide), h.2.2 3000 (by decide),
    h.2.2 1000 (by decide)⟩
